import Mathlib

/-!
Shallow embedding of src/decode_suspension_reasons.py: the suspension-reason
symbol table, the decoder decode_suspension_reason (lines 179-195), the
per-pair insertion loop insert_into_encodings_table (lines 197-224), and the
reconciliation steps of the main block (lines 294-318): discarding null/empty
encodings, decoding the uppercased encodings, grouping pairs per schema, the
no-new-encodings gate, and the hand-off to the insertion step.
-/

/-- The fixed symbol table SUSPENSION_REASONS of the source (lines 17-29),
embedded as a partial map from a character to its label. A character that is
not a key of the Python dict maps to Option.none, matching dict.get with no
default. -/
def SUSPENSION_REASONS : Char → Option String
  | '-' => some "Unknown"
  | 'A' => some "StalePricing"
  | 'B' => some "Settled"
  | 'C' => some "OutsideLineRange"
  | 'D' => some "BelowMinimumPrice"
  | 'E' => some "NoSelection"
  | 'F' => some "MatchVoided"
  | 'H' => some "NoMainLine"
  | 'I' => some "NoUnsettledLines"
  | 'J' => some "NoUnsuspendedLines"
  | 'K' => some "SettlementCorrection"
  | _ => none

/-- A Python value passed to decode_suspension_reason: None, a non-string
value (modelled by an integer), or a string. -/
inductive PyVal where
  | pynone : PyVal
  | pyint : Int → PyVal
  | pystr : String → PyVal
deriving DecidableEq

/-- Whether the Python value is a string, modelling the check
type(text) != str of line 188. -/
def PyVal.isStr : PyVal → Bool
  | .pystr _ => true
  | _ => false

/-- The value decode_suspension_reason produces: the Python None returned for
non-string input (line 189), a decoded string (line 195), or the TypeError
that ";".join raises when the list holds a None (line 193). -/
inductive DecodeResult where
  | pyNone : DecodeResult
  | ok : String → DecodeResult
  | typeError : DecodeResult
deriving DecidableEq

/-- Models Python ";".join applied to a list that may contain None entries:
it succeeds with the list of strings exactly when no entry is None, and
raises TypeError (here: Option.none) otherwise. -/
def joinOptList : List (Option String) → Option (List String)
  | [] => some []
  | none :: _ => none
  | some s :: rest => (joinOptList rest).map (fun l => s :: l)

/-- decode_suspension_reason (source lines 179-195): return None for
non-string input; otherwise look every character up in SUSPENSION_REASONS
and join the results with ";". dict.get yields None for an unmapped
character, and the join then raises TypeError. -/
def decode_suspension_reason (text : PyVal) : DecodeResult :=
  match text with
  | .pystr s =>
    match joinOptList (s.data.map SUSPENSION_REASONS) with
    | some decoded_reasons_list => .ok (String.intercalate ";" decoded_reasons_list)
    | none => .typeError
  | _ => .pyNone

/-- Models Python str.upper for the ASCII encodings of this system, as used
at source line 306 (reason.upper()). -/
def pyUpper (s : String) : String := ⟨s.data.map Char.toUpper⟩

/-- Source line 300: list(filter(lambda x: bool(x), encoded_suspension_reasons)).
A query-result entry is an Option String (None models a SQL null); the filter
keeps exactly the truthy entries, i.e. non-null and non-empty strings. -/
def removeNullOrEmpty (rows : List (Option String)) : List String :=
  rows.filterMap (fun o =>
    match o with
    | some s => if s = "" then none else some s
    | none => none)

/-- Source lines 300-307 for one table: filter the null/empty encodings out,
decode the uppercased form of each remaining encoding, and zip the original
encodings with their decoded values. -/
def tablePairs (rows : List (Option String)) : List (String × DecodeResult) :=
  let encoded_suspension_reasons := removeNullOrEmpty rows
  let decoded_suspension_reasons := encoded_suspension_reasons.map
    (fun reason => decode_suspension_reason (.pystr (pyUpper reason)))
  encoded_suspension_reasons.zip decoded_suspension_reasons

/-- The status of one Athena query execution, restricted to the terminal
states the insertion loop distinguishes. -/
inductive QStatus where
  | succeeded : QStatus
  | failed : QStatus
  | cancelled : QStatus
deriving DecidableEq

/-- What insert_into_encodings_table returns: the single string "SUCCEEDED"
(lines 209 and 222), or the list of per-insert statuses (line 224). -/
inductive InsertResult where
  | succeededAll : InsertResult
  | statuses : List QStatus → InsertResult
deriving DecidableEq

/-- The loop of source lines 210-219: one INSERT query per (encoded, decoded)
pair, in order. The outcome of each query execution is supplied by the
oracle exec; the registry argument models the rows of the backing
vw_suspension_reasons table, to which a successful INSERT INTO appends its
row (Athena INSERT INTO appends; it never checks for an existing row).
Returns the statuses list the source accumulates and the resulting table. -/
def runInserts (exec : String × String → QStatus) :
    List (String × String) → List (String × String) →
    List QStatus × List (String × String)
  | [], registry => ([], registry)
  | p :: ps, registry =>
    let st := exec p
    let registry1 := if st = QStatus.succeeded then registry ++ [p] else registry
    let rest := runInserts exec ps registry1
    (st :: rest.1, rest.2)

/-- insert_into_encodings_table (source lines 197-224): return "SUCCEEDED"
immediately for an empty batch; otherwise run one INSERT per pair, collect
the statuses, and return "SUCCEEDED" when all succeeded and the full status
list otherwise. The second component is the resulting registry table. -/
def insert_into_encodings_table (exec : String × String → QStatus)
    (registry : List (String × String)) (encodings : List (String × String)) :
    InsertResult × List (String × String) :=
  if encodings.length < 1 then (.succeededAll, registry)
  else
    let r := runInserts exec encodings registry
    if r.1.all (fun st => decide (st = QStatus.succeeded)) then (.succeededAll, r.2)
    else (.statuses r.1, r.2)

/-- One table of query results in the main block: the schema it belongs to
and the single-column rows returned for it (None models a SQL null). -/
structure TableBatch where
  schema : String
  rows : List (Option String)
deriving DecidableEq

/-- Models dict.setdefault(schema, []).extend(pairs) of source line 309 on an
insertion-ordered association list. -/
def extendAt (d : List (String × List (String × DecodeResult))) (k : String)
    (v : List (String × DecodeResult)) : List (String × List (String × DecodeResult)) :=
  match d with
  | [] => [(k, v)]
  | kv :: rest => if kv.1 = k then (kv.1, kv.2 ++ v) :: rest else kv :: extendAt rest k v

/-- Source lines 294-309: build new_encodings_dict by iterating the tables;
a table whose filtered encodings list is empty is skipped (the continue of
line 303), otherwise its pairs extend the entry of its schema. -/
def buildNewEncodingsDict (tables : List TableBatch) :
    List (String × List (String × DecodeResult)) :=
  tables.foldl (fun d t =>
    let encoded := removeNullOrEmpty t.rows
    if encoded.length < 1 then d
    else extendAt d t.schema (tablePairs t.rows)) []

/-- The successfully decoded pairs of a schema entry, as the plain string
pairs handed to insert_into_encodings_table. -/
def okPairs (l : List (String × DecodeResult)) : List (String × String) :=
  l.filterMap (fun p =>
    match p.2 with
    | .ok s => some (p.1, s)
    | _ => none)

/-- How a reconciliation run of the main block ends: the early finish_job of
lines 312-315 with nothing passed to insertion, the insertion phase of lines
317-318 listing each insert_into_encodings_table call with its arguments, or
the except branch reached when a decode raised TypeError. -/
inductive RunOutcome where
  | noNewEncodings : RunOutcome
  | insertPhase : List (String × List (String × String)) → RunOutcome
  | decodeException : RunOutcome
deriving DecidableEq

/-- Source lines 294-318: build new_encodings_dict from the table batches;
a TypeError from decode propagates to the enclosing except; the gate of line
312 finishes the job early unless some schema has a pairs list of length
strictly greater than one (the source condition is len(encodings) > 1);
otherwise every schema entry is handed to insert_into_encodings_table. -/
def mainReconcile (tables : List TableBatch) : RunOutcome :=
  if tables.any (fun t => (tablePairs t.rows).any
      (fun p => decide (p.2 = DecodeResult.typeError))) then
    .decodeException
  else if (buildNewEncodingsDict tables).any
      (fun kv => decide (kv.2.length > 1)) then
    .insertPhase ((buildNewEncodingsDict tables).map (fun kv => (kv.1, okPairs kv.2)))
  else
    .noNewEncodings

/-! Helper lemmas -/

/-- The modelled join fails exactly when some entry is None. -/
theorem joinOptList_eq_none {l : List (Option String)} :
    joinOptList l = none ↔ none ∈ l := by
  induction l with
  | nil => simp [joinOptList]
  | cons hd tl ih =>
    cases hd with
    | none => simp [joinOptList]
    | some s => simp [joinOptList, Option.map_eq_none', ih]

/-- When every entry is some, the modelled join returns them all in order. -/
theorem joinOptList_eq_some {l : List (Option String)}
    (h : ∀ o ∈ l, o.isSome) : joinOptList l = some (l.filterMap id) := by
  induction l with
  | nil => simp [joinOptList]
  | cons hd tl ih =>
    cases hd with
    | none => exact absurd (h _ (List.mem_cons_self _ _)) (by simp)
    | some s =>
      have := ih (fun o ho => h o (List.mem_cons_of_mem _ ho))
      simp [joinOptList, this]

/-- filterMap keeps the length when the function never returns none. -/
theorem filterMap_length_all_isSome {α β : Type} (f : α → Option β)
    (l : List α) (h : ∀ a ∈ l, (f a).isSome) :
    (l.filterMap f).length = l.length := by
  induction l with
  | nil => simp
  | cons hd tl ih =>
    cases hf : f hd with
    | none =>
      exact absurd (h _ (List.mem_cons_self _ _)) (by simp [hf])
    | some b =>
      have := ih (fun a ha => h a (List.mem_cons_of_mem _ ha))
      simp [List.filterMap_cons, hf, this]

/-- The first components of a list of pairs built by pairing each element
with a function value are the original list. -/
theorem map_fst_pairing {α β : Type} (f : α → β) (l : List α) :
    (l.map (fun a => (a, f a))).map Prod.fst = l := by
  induction l with
  | nil => rfl
  | cons hd tl ih => simp [ih]

/-- Zipping a list with its own map is mapping the pairing function. -/
theorem zip_self_map {α β : Type} (f : α → β) (l : List α) :
    l.zip (l.map f) = l.map (fun a => (a, f a)) := by
  induction l with
  | nil => rfl
  | cons hd tl ih => simp [ih]

/-- The per-pair loop issues the statuses of the oracle in pair order and
appends exactly the successfully inserted pairs to the registry. -/
theorem runInserts_spec (exec : String × String → QStatus)
    (encodings registry : List (String × String)) :
    (runInserts exec encodings registry).1 = encodings.map exec ∧
    (runInserts exec encodings registry).2 =
      registry ++ encodings.filter (fun p => decide (exec p = QStatus.succeeded)) := by
  induction encodings generalizing registry with
  | nil => simp [runInserts]
  | cons p ps ih =>
    by_cases hp : exec p = QStatus.succeeded
    · simp [runInserts, hp, List.filter_cons, ih, List.append_assoc]
    · simp [runInserts, hp, List.filter_cons, ih]

/-- For a non-empty batch, insert_into_encodings_table collapses to the
per-pair statuses of the oracle and the registry extended by the successful
pairs. -/
theorem insert_into_encodings_table_cons (exec : String × String → QStatus)
    (registry : List (String × String)) (a : String × String)
    (l : List (String × String)) :
    insert_into_encodings_table exec registry (a :: l) =
      (if ((a :: l).map exec).all (fun st => decide (st = QStatus.succeeded)) then
        InsertResult.succeededAll
      else InsertResult.statuses ((a :: l).map exec),
      registry ++ (a :: l).filter (fun p => decide (exec p = QStatus.succeeded))) := by
  have hs := runInserts_spec exec (a :: l) registry
  have hlen : ¬ (a :: l).length < 1 := by simp
  unfold insert_into_encodings_table
  rw [if_neg hlen]
  dsimp only
  rw [hs.1, hs.2]
  by_cases hall : ((a :: l).map exec).all (fun st => decide (st = QStatus.succeeded)) = true
  · rw [if_pos hall, if_pos hall]
  · rw [if_neg hall, if_neg hall]

/-! Claim theorems -/

/-- Claim C1, counterexample: decode_suspension_reason applied to the string
AZ, whose character Z is unmapped, does not return StalePricing;Unknown: the
lookup of Z yields None and the join raises TypeError, so the call raises
rather than substituting the placeholder label. -/
theorem C1_counterexample :
    decode_suspension_reason (PyVal.pystr "AZ") = DecodeResult.typeError ∧
    decode_suspension_reason (PyVal.pystr "AZ") ≠
      DecodeResult.ok "StalePricing;Unknown" := by decide

/-- Claim C1, amended: for every string input containing at least one
character that is not a key of the Symbol Table, decode raises TypeError
(the None from the failed lookup makes the join fail) instead of
substituting a placeholder; the label Unknown is only produced for the
mapped character, the hyphen. -/
theorem C1_unmapped_symbol_raises (s : String)
    (h : ∃ c ∈ s.data, SUSPENSION_REASONS c = none) :
    decode_suspension_reason (PyVal.pystr s) = DecodeResult.typeError := by
  obtain ⟨c, hc, hnone⟩ := h
  have hj : joinOptList (s.data.map SUSPENSION_REASONS) = none :=
    joinOptList_eq_none.mpr (List.mem_map.mpr ⟨c, hc, hnone⟩)
  simp [decode_suspension_reason, hj]

/-- Claim C1, witness: AZ contains the unmapped character Z, and decoding it
raises TypeError. -/
theorem C1_unmapped_symbol_raises_witness :
    decode_suspension_reason (PyVal.pystr "AZ") = DecodeResult.typeError :=
  C1_unmapped_symbol_raises "AZ" ⟨'Z', by decide, by decide⟩

/-- Claim C2: the no-new-encodings gate of the main block tests
len(encodings) > 1, so a run whose only table yields exactly one new
encoding (here the single encoding A, which decodes successfully) takes the
early No-new-encodings exit and its decoded pair is never passed to
insert_into_encodings_table, while a run with two new encodings does reach
the insertion step; this contradicts the claim (and the comment in the
source) that any non-empty set of new encodings is inserted. -/
theorem C2_single_new_encoding_skipped :
    tablePairs [some "A"] = [("A", DecodeResult.ok "StalePricing")] ∧
    mainReconcile [⟨"baseball_stagingus", [some "A"]⟩] = RunOutcome.noNewEncodings ∧
    mainReconcile [⟨"baseball_stagingus", [some "A", some "B"]⟩] =
      RunOutcome.insertPhase
        [("baseball_stagingus", [("A", "StalePricing"), ("B", "Settled")])] := by
  decide

/-- Claim C3, counterexample: with a registry already holding the pair
(A, StalePricing), inserting the pair (A, Foo) whose Encoded String A is
already present is not skipped: the INSERT is issued and appends a second
row for A, is reported as success, and the registry afterwards holds two
different Decoded Strings for the Encoded String A. -/
theorem C3_counterexample :
    (insert_into_encodings_table (fun _ => QStatus.succeeded)
        [("A", "StalePricing")] [("A", "Foo")]).2 =
      [("A", "StalePricing"), ("A", "Foo")] ∧
    (insert_into_encodings_table (fun _ => QStatus.succeeded)
        [("A", "StalePricing")] [("A", "Foo")]).1 = InsertResult.succeededAll := by
  decide

/-- Claim C3, amended: insert_into_encodings_table is not idempotent per
Encoded String: for every batch it attempts one insertion per pair
unconditionally, never consulting the existing registry, and the resulting
registry is the old rows followed by every pair whose INSERT succeeded —
including pairs whose Encoded String was already present, which are
re-appended rather than skipped; uniqueness of keys relies solely on the
upstream filtering of the reconciliation run. -/
theorem C3_insert_unconditional (exec : String × String → QStatus)
    (registry encodings : List (String × String)) :
    (insert_into_encodings_table exec registry encodings).2 =
      registry ++ encodings.filter (fun p => decide (exec p = QStatus.succeeded)) := by
  cases encodings with
  | nil => simp [insert_into_encodings_table]
  | cons a l => rw [insert_into_encodings_table_cons]

/-- Claim C4: for every encoded string s composed only of characters that
are keys of the Symbol Table, decode returns the labels of the characters of
s joined with the separator semicolon, in input order, and the number of
labels equals the length of s. -/
theorem C4_decode_known_symbols (s : String)
    (h : ∀ c ∈ s.data, (SUSPENSION_REASONS c).isSome) :
    decode_suspension_reason (PyVal.pystr s) =
      DecodeResult.ok (String.intercalate ";" (s.data.filterMap SUSPENSION_REASONS)) ∧
    (s.data.filterMap SUSPENSION_REASONS).length = s.length := by
  have hall : ∀ o ∈ s.data.map SUSPENSION_REASONS, o.isSome := by
    intro o ho
    obtain ⟨c, hc, rfl⟩ := List.mem_map.mp ho
    exact h c hc
  have hj := joinOptList_eq_some hall
  constructor
  · simp [decode_suspension_reason, hj, List.filterMap_map]
  · rw [filterMap_length_all_isSome SUSPENSION_REASONS s.data h]
    rfl

/-- Claim C4, witness: the all-known string AB decodes to its two labels
joined with a semicolon, and the label count is the length of AB. -/
theorem C4_decode_known_symbols_witness :
    decode_suspension_reason (PyVal.pystr "AB") =
      DecodeResult.ok (String.intercalate ";" (("AB").data.filterMap SUSPENSION_REASONS)) ∧
    (("AB").data.filterMap SUSPENSION_REASONS).length = ("AB").length :=
  C4_decode_known_symbols "AB" (by decide)

/-- Claim C5: on a batch of pairs for which not every insertion succeeds,
insert_into_encodings_table issues one insertion per pair and returns the
list of per-pair outcomes — one status per attempted pair, in pair order —
rather than the single collapsed success value. -/
theorem C5_per_pair_outcomes (exec : String × String → QStatus)
    (registry encodings : List (String × String))
    (h : (encodings.map exec).all (fun st => decide (st = QStatus.succeeded)) = false) :
    (runInserts exec encodings registry).1.length = encodings.length ∧
    (insert_into_encodings_table exec registry encodings).1 =
      InsertResult.statuses (encodings.map exec) := by
  cases encodings with
  | nil => simp at h
  | cons a l =>
    constructor
    · rw [(runInserts_spec exec (a :: l) registry).1]
      simp
    · rw [insert_into_encodings_table_cons]
      dsimp only
      rw [if_neg (by rw [h]; exact Bool.false_ne_true)]

/-- Claim C5, witness: a two-pair batch whose second insertion fails yields
two issued insertions and the two per-pair statuses in order. -/
theorem C5_per_pair_outcomes_witness :
    (runInserts (fun p => if p.1 = "B" then QStatus.failed else QStatus.succeeded)
        [("A", "StalePricing"), ("B", "Settled")] []).1.length =
      ([("A", "StalePricing"), ("B", "Settled")] : List (String × String)).length ∧
    (insert_into_encodings_table
        (fun p => if p.1 = "B" then QStatus.failed else QStatus.succeeded)
        [] [("A", "StalePricing"), ("B", "Settled")]).1 =
      InsertResult.statuses ([("A", "StalePricing"), ("B", "Settled")].map
        (fun p => if p.1 = "B" then QStatus.failed else QStatus.succeeded)) :=
  C5_per_pair_outcomes
    (fun p => if p.1 = "B" then QStatus.failed else QStatus.succeeded)
    [] [("A", "StalePricing"), ("B", "Settled")] (by decide)

/-- Claim C6: a failed insertion neither aborts nor rolls back the batch:
every pair is attempted in order regardless of earlier failures, the pairs
whose own insertion succeeded are all persisted, and the call returns
normally with either the all-succeeded marker or the per-pair status list
that distinguishes the successful insertions from the failed ones. -/
theorem C6_failures_do_not_abort (exec : String × String → QStatus)
    (registry encodings : List (String × String)) :
    (runInserts exec encodings registry).1 = encodings.map exec ∧
    (insert_into_encodings_table exec registry encodings).2 =
      registry ++ encodings.filter (fun p => decide (exec p = QStatus.succeeded)) ∧
    ((insert_into_encodings_table exec registry encodings).1 = InsertResult.succeededAll ∨
      (insert_into_encodings_table exec registry encodings).1 =
        InsertResult.statuses (encodings.map exec)) := by
  have hs := runInserts_spec exec encodings registry
  refine ⟨hs.1, ?_, ?_⟩
  · cases encodings with
    | nil => simp [insert_into_encodings_table]
    | cons a l => rw [insert_into_encodings_table_cons]
  · cases encodings with
    | nil => simp [insert_into_encodings_table]
    | cons a l =>
      rw [insert_into_encodings_table_cons]
      by_cases hall : ((a :: l).map exec).all (fun st => decide (st = QStatus.succeeded)) = true
      · left
        dsimp only
        rw [if_pos hall]
      · right
        dsimp only
        rw [if_neg hall]

/-- Claim C7: decode applied to the empty string returns the empty string
and decode applied to None returns None; neither raises. -/
theorem C7_empty_and_none_no_error :
    decode_suspension_reason (PyVal.pystr "") = DecodeResult.ok "" ∧
    decode_suspension_reason PyVal.pynone = DecodeResult.pyNone := by decide

/-- Claim C8: the null and empty entries of a batch are discarded before any
decoding: the pairs of a table are exactly one pair per surviving encoding,
the encodings actually decoded are exactly the non-null non-empty entries of
the batch, and membership in the filtered batch characterises exactly those
entries. -/
theorem C8_filter_before_decode (rows : List (Option String)) (s : String) :
    tablePairs rows = (removeNullOrEmpty rows).map
      (fun r => (r, decode_suspension_reason (PyVal.pystr (pyUpper r)))) ∧
    (tablePairs rows).map Prod.fst = removeNullOrEmpty rows ∧
    (s ∈ removeNullOrEmpty rows ↔ (some s ∈ rows ∧ s ≠ "")) := by
  have hz : tablePairs rows = (removeNullOrEmpty rows).map
      (fun r => (r, decode_suspension_reason (PyVal.pystr (pyUpper r)))) :=
    zip_self_map _ _
  refine ⟨hz, ?_, ?_⟩
  · rw [hz]
    exact map_fst_pairing _ _
  · unfold removeNullOrEmpty
    rw [List.mem_filterMap]
    constructor
    · rintro ⟨o, ho, hmap⟩
      cases o with
      | none => simp at hmap
      | some t =>
        by_cases ht : t = ""
        · simp [ht] at hmap
        · simp only [ht, if_false] at hmap
          cases hmap
          exact ⟨ho, ht⟩
    · rintro ⟨ho, hs⟩
      exact ⟨some s, ho, by simp [hs]⟩

/-- Claim C9: each pair assembled for insertion keeps the original observed
encoding as key while the decoded value is computed from its uppercased
form; hence two batch entries that differ only in case give distinct keys
with the same decoded value. -/
theorem C9_case_preserving_keys (rows : List (Option String)) (s t : String)
    (hne : s ≠ t) (hup : pyUpper s = pyUpper t) :
    tablePairs rows = (removeNullOrEmpty rows).map
      (fun r => (r, decode_suspension_reason (PyVal.pystr (pyUpper r)))) ∧
    (s, decode_suspension_reason (PyVal.pystr (pyUpper s))).1 ≠
      (t, decode_suspension_reason (PyVal.pystr (pyUpper t))).1 ∧
    (s, decode_suspension_reason (PyVal.pystr (pyUpper s))).2 =
      (t, decode_suspension_reason (PyVal.pystr (pyUpper t))).2 := by
  refine ⟨zip_self_map _ _, hne, ?_⟩
  rw [hup]

/-- Claim C9, witness: the entries a and A differ only in case; their pairs
have distinct keys and equal decoded values. -/
theorem C9_case_preserving_keys_witness :
    tablePairs [some "a", some "A"] = (removeNullOrEmpty [some "a", some "A"]).map
      (fun r => (r, decode_suspension_reason (PyVal.pystr (pyUpper r)))) ∧
    ("a", decode_suspension_reason (PyVal.pystr (pyUpper "a"))).1 ≠
      ("A", decode_suspension_reason (PyVal.pystr (pyUpper "A"))).1 ∧
    ("a", decode_suspension_reason (PyVal.pystr (pyUpper "a"))).2 =
      ("A", decode_suspension_reason (PyVal.pystr (pyUpper "A"))).2 :=
  C9_case_preserving_keys [some "a", some "A"] "a" "A" (by decide) (by decide)

/-- Claim C10: decode returns the Python None exactly when its input is not
a string, and for the empty string it returns the empty string, a value
distinct from None. -/
theorem C10_none_iff_nonstring (t : PyVal) :
    (decode_suspension_reason t = DecodeResult.pyNone ↔ t.isStr = false) ∧
    decode_suspension_reason (PyVal.pystr "") = DecodeResult.ok "" ∧
    DecodeResult.ok "" ≠ DecodeResult.pyNone := by
  refine ⟨?_, by decide, by decide⟩
  cases t with
  | pynone => simp [decode_suspension_reason, PyVal.isStr]
  | pyint n => simp [decode_suspension_reason, PyVal.isStr]
  | pystr s =>
    simp only [PyVal.isStr]
    constructor
    · intro h
      exfalso
      cases hj : joinOptList (s.data.map SUSPENSION_REASONS) with
      | none => simp [decode_suspension_reason, hj] at h
      | some ls => simp [decode_suspension_reason, hj] at h
    · intro h
      simp at h
